import Mathlib

/-
Verification of the RetailNexus incremental pipeline (shallow embedding).

Each definition below is a direct translation of a function of the
repository's source:

* `src/ingestion/stream_processor.py` — cursor-tracked micro-batch consumer
  (`get_last_processed_line`, `read_new_events`, `process_micro_batch`);
* `src/transformation/star_schema.py` — star-schema builders and their
  publish sequence (`build_fact_transactions`, `build_fact_inventory`);
* `src/transformation/cleaner.py` — Bronze → Silver normalizer
  (`clean_transactions`, `clean_users`, `clean_all`);
* `src/transformation/scd_logic.py` — SCD Type 2 merge (`apply_scd_type_2`).

SQL tables are embedded as Lean lists of rows (bag semantics: duplicates
and order are kept), `NULL`-able SQL values as `Option`, DuckDB `JOIN` /
`LEFT JOIN` as explicit list products, `ROW_NUMBER() OVER (ORDER BY k)` as
numbering of the list sorted by `k`, and `DOUBLE` columns as `ℚ` (no claim
below depends on float rounding — the values are only moved, multiplied
once, compared to zero, or tested for `NULL`).  Dates and timestamps are
abstracted to day / instant numbers (`Nat`); the pipeline only stores,
compares and copies them.
-/

namespace RetailNexus

/-! ## Stream processor — `src/ingestion/stream_processor.py`

A line of the streaming buffer `events.jsonl` is `some e` when
`json.loads` succeeds and yields the event payload `e`, and `none` when
the line is malformed (the `json.JSONDecodeError` branch).  The payload
type is left abstract. -/

/-- `enumerate(f, start=k+1)` / `ROW_NUMBER() OVER ()`: pair every list
element with its 1-based index, starting after `k`. -/
def numberLines {β : Type} (k : Nat) : List β → List (Nat × β)
  | [] => []
  | l :: rest => (k + 1, l) :: numberLines (k + 1) rest

/-- `read_new_events`, instrumented with the loop index `i`: every line
with `i > last_processed` whose JSON parses contributes `(i, event)`;
malformed lines are skipped (the warning branch). -/
def readNewEventsIdx {α : Type} (buffer : List (Option α)) (lastProcessed : Nat) :
    List (Nat × α) :=
  (numberLines 0 buffer).filterMap fun p =>
    if lastProcessed < p.1 then p.2.map fun e => (p.1, e) else none

/-- `read_new_events` as the code returns it: the parsed events only. -/
def readNewEvents {α : Type} (buffer : List (Option α)) (lastProcessed : Nat) :
    List α :=
  (readNewEventsIdx buffer lastProcessed).map Prod.snd

/-- The cursor marker persisted by `process_micro_batch`.

`bufferAtRead` is the buffer contents when `read_new_events` scans it and
`bufferAtMark` the contents when the marker-update block recounts
`total_lines = sum(1 for _ in f)` — producers may append between the two
reads, so `bufferAtRead` is a prefix of `bufferAtMark`.  `writeOk = false`
models `write_events_to_csv` raising: the exception propagates before the
marker update, so `set_last_processed_line` never runs and the marker
keeps its previous value.  When the batch is empty the function returns
before any write (`if not events: return 0`). -/
def processMicroBatchMarker {α : Type} (bufferAtRead bufferAtMark : List (Option α))
    (writeOk : Bool) (lastProcessed : Nat) : Nat :=
  match readNewEvents bufferAtRead lastProcessed with
  | [] => lastProcessed
  | _ :: _ => if writeOk then bufferAtMark.length else lastProcessed

/-! ## Star-schema publish sequence — `src/transformation/star_schema.py`

`build_fact_transactions` publishes in three filesystem steps:
`COPY fact_transactions_temp TO '<path>.tmp'`, then
`os.remove(GOLD_FACT_TXN)` (the old published file), then
`os.rename(temp_file, GOLD_FACT_TXN)`.  The filesystem is embedded as the
contents of the published path and of the temp path (`none` = no file). -/

structure PubFS (τ : Type) where
  published : Option τ
  temp : Option τ
deriving DecidableEq

inductive PubOp (τ : Type) where
  | writeTemp (t : τ)
  | removeOld
  | renameTempToPublished
deriving DecidableEq

def pubStep {τ : Type} (s : PubFS τ) : PubOp τ → PubFS τ
  | .writeTemp t => { s with temp := some t }
  | .removeOld => { s with published := none }
  | .renameTempToPublished => { published := s.temp, temp := none }

/-- Every filesystem state reached while executing a sequence of publish
operations, initial state included. -/
def pubTrace {τ : Type} (s : PubFS τ) : List (PubOp τ) → List (PubFS τ)
  | [] => [s]
  | op :: ops => s :: pubTrace (pubStep s op) ops

/-- The publish sequence of `build_fact_transactions` when a published
file already exists: write the temp file, remove the old published file,
rename the temp file into place. -/
def factTxnPublishOps {τ : Type} (t : τ) : List (PubOp τ) :=
  [.writeTemp t, .removeOld, .renameTempToPublished]

/-- The publish sequence of `build_fact_inventory`: `shutil.rmtree` the
old published directory, then `COPY ... TO '<published path>'` writes the
partition files directly into the published path — there is no temporary
location; the directory is observable while incomplete.  The incremental
`COPY` is modelled as one partition-directory write per partition. -/
def factInventoryPublishOps {τ : Type} (parts : List τ) : List (PubOp τ) :=
  .removeOld :: parts.map fun p => .writeTemp p

/-- For `build_fact_inventory` the "temp" component of `PubFS` is unused:
the partition writes land in the published path itself. -/
def factInventoryStep {τ : Type} (s : PubFS (List τ)) : PubOp (List τ) → PubFS (List τ)
  | .writeTemp p => { s with published := some ((s.published.getD []) ++ p) }
  | .removeOld => { s with published := none }
  | .renameTempToPublished => s

def factInventoryTrace {τ : Type} (s : PubFS (List τ)) :
    List (PubOp (List τ)) → List (PubFS (List τ))
  | [] => [s]
  | op :: ops => s :: factInventoryTrace (factInventoryStep s op) ops

/-! ## `clean_all` — `src/transformation/cleaner.py`

Each per-entity cleaner either returns a `Bool` (`False` = skipped) or
raises; `Except String Bool` embeds that outcome.  The `_has_files` guard
at the top of every cleaner returns `False` — a skip, not an error — when
no raw CSV matches the entity's pattern. -/

/-- The `if not _has_files(pattern): return False` guard followed by the
cleaner's body. -/
def cleanEntity (hasFiles : Bool) (body : Except String Bool) : Except String Bool :=
  if hasFiles then body else Except.ok false

/-- One iteration of the `clean_all` loop:
`try: results[name] = func() except ...: results[name] = False`. -/
def runCleaner (r : Except String Bool) : Bool :=
  match r with
  | .ok b => b
  | .error _ => false

/-- The `clean_all` loop over an arbitrary entity list: every entity's
cleaner runs; an exception is caught and recorded as `false`. -/
def cleanAllLoop : List (String × Except String Bool) → List (String × Bool)
  | [] => []
  | (n, r) :: rest => (n, runCleaner r) :: cleanAllLoop rest

/-- `clean_all` over its five fixed entities. -/
def cleanAll (tx us pr inv sh : Except String Bool) : List (String × Bool) :=
  cleanAllLoop
    [("transactions", tx), ("users", us), ("products", pr),
     ("inventory", inv), ("shipments", sh)]

/-! ## Bronze normalizer — `src/transformation/cleaner.py`

`read_csv(glob, union_by_name=true, auto_detect=true)` merges CSV files
with different headers: a column missing from a file is `NULL` for that
file's rows.  A cell is embedded as a typed value (`auto_detect` already
typed the column) or `NULL`; `TRY_CAST` to a different type yields `NULL`.
Header names are taken lowercase, as the code lowercases the `DESCRIBE`
output and DuckDB matches identifiers case-insensitively. -/

inductive CellVal where
  | null
  | num (q : ℚ)
  | str (s : String)
  | instant (t : Nat)
deriving DecidableEq

/-- A row of the unioned scan: the value of every column name. -/
abbrev RawRow := String → CellVal

/-- One raw CSV artifact: its header list and its rows. -/
structure RawArtifact where
  headers : List String
  cells : List RawRow

/-- The unioned scan: each artifact's rows, extended with `NULL` for every
column the artifact does not expose. -/
def unionByName (arts : List RawArtifact) : List RawRow :=
  arts.flatMap fun a => a.cells.map fun r c => if a.headers.contains c then r c else .null

/-- Column discovery: `DESCRIBE` over the unioned scan lists every header
occurring in some artifact, first occurrence first. -/
def discoverCols (arts : List RawArtifact) : List String :=
  (arts.flatMap RawArtifact.headers).dedup

def tryCastVarchar : CellVal → Option String
  | .null => none
  | .num q => some (toString q)
  | .str s => some s
  | .instant t => some (toString t)

def tryCastDouble : CellVal → Option ℚ
  | .num q => some q
  | _ => none

def tryCastTimestamp : CellVal → Option Nat
  | .instant t => some t
  | _ => none

/-- SQL `COALESCE`: the first non-`NULL` argument. -/
def sqlCoalesce {τ : Type} : List (Option τ) → Option τ
  | [] => none
  | some x :: _ => some x
  | none :: rest => sqlCoalesce rest

/-- SQL `NULL`-propagating multiplication (`price * quantity`). -/
def optMul (a b : Option ℚ) : Option ℚ :=
  match a, b with
  | some x, some y => some (x * y)
  | _, _ => none

/-- `[TRY_CAST("c" AS τ) for c in names if c in cols]`: the candidate
expressions for one canonical field, in candidate-list order. -/
def candExprs {τ : Type} (cols names : List String) (cast : CellVal → Option τ) :
    List (RawRow → Option τ) :=
  (names.filter fun c => cols.contains c).map fun c => fun r => cast (r c)

def tidCols : List String := ["transaction_id", "invoice", "order_id", "invoice_no"]
def pidCols : List String := ["product_id", "stockcode", "sku", "item_id", "product_code"]
def uidCols : List String := ["user_id", "customer_id", "client_id", "customerid"]
def tsCols : List String := ["timestamp", "invoicedate", "date", "order_date", "invoice_date"]
def sidCols : List String := ["store_id", "country", "location", "branch"]

/-- `tid_expr`: coalesce over candidates, or
`CAST(ROW_NUMBER() OVER () AS VARCHAR)` when no candidate column exists. -/
def tidExpr (cols : List String) (rowNum : Nat) (r : RawRow) : Option String :=
  match candExprs cols tidCols tryCastVarchar with
  | [] => some (toString rowNum)
  | cands => sqlCoalesce (cands.map fun f => f r)

def pidExpr (cols : List String) (r : RawRow) : Option String :=
  match candExprs cols pidCols tryCastVarchar with
  | [] => some "UNKNOWN"
  | cands => sqlCoalesce (cands.map fun f => f r)

def uidExpr (cols : List String) (r : RawRow) : Option String :=
  match candExprs cols uidCols tryCastVarchar with
  | [] => some "U001"
  | cands => sqlCoalesce (cands.map fun f => f r)

/-- `ts_expr`: coalesce over candidates, or `CURRENT_TIMESTAMP` (the run
instant `now`) when no candidate column exists. -/
def tsExpr (cols : List String) (now : Nat) (r : RawRow) : Option Nat :=
  match candExprs cols tsCols tryCastTimestamp with
  | [] => some now
  | cands => sqlCoalesce (cands.map fun f => f r)

def sidExpr (cols : List String) (r : RawRow) : Option String :=
  match candExprs cols sidCols tryCastVarchar with
  | [] => some "S001"
  | cands => sqlCoalesce (cands.map fun f => f r)

/-- The `amount` candidate list: `amount`, then `price * quantity` when
both columns exist, then `price`, then `total`. -/
def amtCandidates (cols : List String) : List (RawRow → Option ℚ) :=
  (if cols.contains "amount" then [fun r => tryCastDouble (r "amount")] else []) ++
    (if cols.contains "price" && cols.contains "quantity" then
      [fun r => optMul (tryCastDouble (r "price")) (tryCastDouble (r "quantity"))]
    else []) ++
    (if cols.contains "price" then [fun r => tryCastDouble (r "price")] else []) ++
    (if cols.contains "total" then [fun r => tryCastDouble (r "total")] else [])

/-- `amt_expr = COALESCE(candidates..., 0)`, or the literal `0` when no
candidate column exists. -/
def amtExpr (cols : List String) (r : RawRow) : ℚ :=
  (sqlCoalesce ((amtCandidates cols).map fun f => f r)).getD 0

/-- One row of the inner `SELECT` of `clean_transactions` (alias `sub`). -/
structure SubRow where
  txn_id : Option String
  uid : Option String
  prod_id : Option String
  ts : Option Nat
  amt : ℚ
  sid : Option String
deriving DecidableEq

def subSelect (cols : List String) (now : Nat) (rows : List RawRow) : List SubRow :=
  (numberLines 0 rows).map fun p =>
    { txn_id := tidExpr cols p.1 p.2
      uid := uidExpr cols p.2
      prod_id := pidExpr cols p.2
      ts := tsExpr cols now p.2
      amt := amtExpr cols p.2
      sid := sidExpr cols p.2 }

/-- `WHERE txn_id IS NOT NULL AND prod_id IS NOT NULL AND amt > 0`. -/
def subWhere (s : SubRow) : Bool :=
  s.txn_id.isSome && s.prod_id.isSome && decide (0 < s.amt)

/-- SQL `VARCHAR` ordering: lexicographic comparison by code point
(`String.lt` is the same ordering; this form kernel-reduces). -/
def charLtB (a b : Char) : Bool := decide (a.val.toNat < b.val.toNat)

def strLtData : List Char → List Char → Bool
  | [], [] => false
  | [], _ :: _ => true
  | _ :: _, [] => false
  | a :: as, b :: bs =>
    if charLtB a b then true else if charLtB b a then false else strLtData as bs

def strLtB (a b : String) : Bool := strLtData a.data b.data

def strLeB (a b : String) : Bool := strLtB a b || a == b

/-- `<` on a nullable `VARCHAR` sort key, ascending with `NULLS LAST`. -/
def optStrLtB : Option String → Option String → Bool
  | none, _ => false
  | some _, none => true
  | some a, some b => strLtB a b

/-- `≤` on a nullable sort key, ascending with `NULLS LAST` (DuckDB's
default null ordering). -/
def optLeB {τ : Type} [LinearOrder τ] : Option τ → Option τ → Bool
  | _, none => true
  | none, some _ => false
  | some a, some b => decide (a ≤ b)

/-- `<` on a nullable sort key, ascending with `NULLS LAST`. -/
def optLtB {τ : Type} [LinearOrder τ] : Option τ → Option τ → Bool
  | none, _ => false
  | some _, none => true
  | some a, some b => decide (a < b)

/-- `ORDER BY txn_id, prod_id, ts`. -/
def subOrder (a b : SubRow) : Bool :=
  if a.txn_id = b.txn_id then
    if a.prod_id = b.prod_id then optLeB a.ts b.ts
    else optStrLtB a.prod_id b.prod_id
  else optStrLtB a.txn_id b.txn_id

/-- `DISTINCT ON (key)`: keep the first row of each key group in scan
order (after the `ORDER BY` sort, the first row of the stated ordering). -/
def distinctOnAux {α κ : Type} [DecidableEq κ] (key : α → κ) (seen : List κ) :
    List α → List α
  | [] => []
  | a :: rest =>
    if key a ∈ seen then distinctOnAux key seen rest
    else a :: distinctOnAux key (key a :: seen) rest

def distinctOn {α κ : Type} [DecidableEq κ] (key : α → κ) (l : List α) : List α :=
  distinctOnAux key [] l

def subKey (s : SubRow) : Option String × Option String := (s.txn_id, s.prod_id)

/-- A row of the Silver `transactions.parquet` table. -/
structure SilverTxnRow where
  transaction_id : String
  user_id : Option String
  product_id : String
  timestamp : Option Nat
  amount : ℚ
  store_id : Option String
deriving DecidableEq

def toSilverTxn (s : SubRow) : SilverTxnRow :=
  { transaction_id := s.txn_id.getD ""
    user_id := s.uid
    product_id := s.prod_id.getD ""
    timestamp := s.ts
    amount := s.amt
    store_id := s.sid }

/-- `clean_transactions` from the matched raw artifacts to the Silver
table it overwrites.  `now` is the run's `CURRENT_TIMESTAMP`. -/
def cleanTransactionsRows (now : Nat) (arts : List RawArtifact) : List SilverTxnRow :=
  (distinctOn subKey
      (List.insertionSort (fun a b => subOrder a b = true)
        ((subSelect (discoverCols arts) now (unionByName arts)).filter subWhere))).map
    toSilverTxn

/-- A row of the users raw scan (`read_csv(..., filename=true)`): the five
fixed columns plus the source file name. -/
structure RawUserRow where
  user_id : Option String
  name : Option String
  email : Option String
  city : Option String
  signup_date : Option Nat
  filename : String
deriving DecidableEq

/-- A row of the Silver `users.parquet` table. -/
structure SilverUserRow where
  user_id : String
  name : Option String
  email : Option String
  city : String
  signup_date : Option Nat
deriving DecidableEq

/-- `ORDER BY user_id, filename DESC, signup_date DESC` (descending keys
keep DuckDB's `NULLS LAST` default). -/
def userOrder (a b : RawUserRow) : Bool :=
  if a.user_id = b.user_id then
    if a.filename = b.filename then
      match a.signup_date, b.signup_date with
      | _, none => true
      | none, some _ => false
      | some x, some y => decide (y ≤ x)
    else strLtB b.filename a.filename
  else optStrLtB a.user_id b.user_id

/-- `clean_users`: drop null `user_id`, keep the latest record per
`user_id`, default `city` to `'Unknown'`. -/
def cleanUsersRows (raws : List RawUserRow) : List SilverUserRow :=
  (distinctOn RawUserRow.user_id
      (List.insertionSort (fun a b => userOrder a b = true)
        (raws.filter fun r => r.user_id.isSome))).map fun r =>
    { user_id := r.user_id.getD ""
      name := r.name
      email := r.email
      city := r.city.getD "Unknown"
      signup_date := r.signup_date }

/-- One run of `clean_transactions` as a transformer of the Silver table
location: the output is recomputed from the raw artifacts alone and
overwrites whatever was previously published there. -/
def cleanTransactionsRun (now : Nat) (arts : List RawArtifact)
    (_prev : Option (List SilverTxnRow)) : Option (List SilverTxnRow) :=
  some (cleanTransactionsRows now arts)

/-- One run of `clean_users` as a transformer of the Silver table. -/
def cleanUsersRun (raws : List RawUserRow)
    (_prev : Option (List SilverUserRow)) : Option (List SilverUserRow) :=
  some (cleanUsersRows raws)

/-! ## SCD Type 2 merge — `src/transformation/scd_logic.py`

`apply_scd_type_2` reads Silver `users.parquet` (the `incoming` temp
table) and the Gold `dim_users.parquet` (the `existing` temp table), and
writes the merged dimension.  `surrogate_key` is SQL `INTEGER`, dates are
day numbers, `today` is `date.today()`. -/

structure DimUserRow where
  surrogate_key : Int
  user_id : String
  name : Option String
  email : Option String
  city : String
  effective_date : Option Nat
  end_date : Option Nat
  is_current : Bool
deriving DecidableEq

/-- `ROW_NUMBER() OVER (ORDER BY k)` offset by a base: 1-based numbering
of a list, keys `base + 1, base + 2, ...`. -/
def numberFromInt {α : Type} (k : Int) : List α → List (Int × α)
  | [] => []
  | a :: rest => (k + 1, a) :: numberFromInt (k + 1) rest

/-- The `ORDER BY i.user_id` of the `ROW_NUMBER` window. -/
def sortByUserId (l : List SilverUserRow) : List SilverUserRow :=
  List.insertionSort (fun a b => strLeB a.user_id b.user_id = true) l

/-- First run (`dim_users.parquet` absent): every Silver row becomes a
current version, surrogate keys `ROW_NUMBER() OVER (ORDER BY user_id)`. -/
def initialLoad (silver : List SilverUserRow) : List DimUserRow :=
  (numberFromInt 0 (sortByUserId silver)).map fun p =>
    { surrogate_key := p.1
      user_id := p.2.user_id
      name := p.2.name
      email := p.2.email
      city := p.2.city
      effective_date := p.2.signup_date
      end_date := none
      is_current := true }

/-- `SELECT COALESCE(MAX(surrogate_key), 0) FROM existing`. -/
def maxSk (existing : List DimUserRow) : Int :=
  match existing with
  | [] => 0
  | e :: rest => rest.foldl (fun m r => max m r.surrogate_key) e.surrogate_key

/-- SQL inner `JOIN l1 ON cond`: every pair of rows satisfying the `ON`
condition, in nested-scan order (bag semantics). -/
def sqlJoin {α β : Type} (l1 : List α) (l2 : List β) (cond : α → β → Bool) :
    List (α × β) :=
  l1.flatMap fun a => ((l2.filter fun b => cond a b).map fun b => (a, b))

/-- `unchanged`: current existing rows whose city equals the matching
incoming row's city, carried forward verbatim. -/
def unchangedRows (existing : List DimUserRow) (incoming : List SilverUserRow) :
    List DimUserRow :=
  ((sqlJoin existing incoming fun e i => e.user_id == i.user_id).filter fun p =>
      p.1.is_current && p.1.city == p.2.city).map Prod.fst

/-- `closed`: current existing rows whose city changed, closed with
`end_date = today`, `is_current = false`. -/
def closedRows (existing : List DimUserRow) (incoming : List SilverUserRow)
    (today : Nat) : List DimUserRow :=
  ((sqlJoin existing incoming fun e i => e.user_id == i.user_id).filter fun p =>
      p.1.is_current && p.1.city != p.2.city).map fun p =>
    { p.1 with end_date := some today, is_current := false }

/-- The incoming side of the `new_versions` join (`FROM incoming i JOIN
existing e ... WHERE e.is_current AND e.city != i.city`). -/
def newVersionSrc (existing : List DimUserRow) (incoming : List SilverUserRow) :
    List SilverUserRow :=
  ((sqlJoin incoming existing fun i e => i.user_id == e.user_id).filter fun p =>
      p.2.is_current && p.2.city != p.1.city).map Prod.fst

/-- `new_versions`: a fresh current version per changed user, surrogate
keys `max_sk + ROW_NUMBER() OVER (ORDER BY i.user_id)`. -/
def newVersionRows (existing : List DimUserRow) (incoming : List SilverUserRow)
    (today : Nat) : List DimUserRow :=
  (numberFromInt (maxSk existing) (sortByUserId (newVersionSrc existing incoming))).map
    fun p =>
      { surrogate_key := p.1
        user_id := p.2.user_id
        name := p.2.name
        email := p.2.email
        city := p.2.city
        effective_date := some today
        end_date := none
        is_current := true }

/-- The incoming rows with no existing version
(`WHERE i.user_id NOT IN (SELECT user_id FROM existing)`). -/
def brandNewSrc (existing : List DimUserRow) (incoming : List SilverUserRow) :
    List SilverUserRow :=
  incoming.filter fun i => !(existing.any fun e => e.user_id == i.user_id)

/-- `brand_new`: first versions for brand-new users, surrogate keys
`max_sk + COUNT(new_versions) + ROW_NUMBER() OVER (ORDER BY i.user_id)`. -/
def brandNewRows (existing : List DimUserRow) (incoming : List SilverUserRow) :
    List DimUserRow :=
  (numberFromInt (maxSk existing + (newVersionSrc existing incoming).length)
      (sortByUserId (brandNewSrc existing incoming))).map fun p =>
    { surrogate_key := p.1
      user_id := p.2.user_id
      name := p.2.name
      email := p.2.email
      city := p.2.city
      effective_date := p.2.signup_date
      end_date := none
      is_current := true }

/-- `already_closed`: historical rows kept unmodified. -/
def alreadyClosedRows (existing : List DimUserRow) : List DimUserRow :=
  existing.filter fun e => !e.is_current

/-- The final `ORDER BY user_id, effective_date`. -/
def dimOrder (a b : DimUserRow) : Bool :=
  if a.user_id = b.user_id then optLeB a.effective_date b.effective_date
  else strLtB a.user_id b.user_id

/-- A subsequent run: the `UNION ALL` of the five row classes, ordered by
`(user_id, effective_date)`. -/
def scdMerge (existing : List DimUserRow) (incoming : List SilverUserRow)
    (today : Nat) : List DimUserRow :=
  List.insertionSort (fun a b => dimOrder a b = true)
    (unchangedRows existing incoming ++ closedRows existing incoming today ++
      newVersionRows existing incoming today ++ brandNewRows existing incoming ++
      alreadyClosedRows existing)

/-- `apply_scd_type_2`: initial load when no Gold table exists, merge
otherwise. -/
def applyScdType2 (gold : Option (List DimUserRow)) (silver : List SilverUserRow)
    (today : Nat) : List DimUserRow :=
  match gold with
  | none => initialLoad silver
  | some existing => scdMerge existing silver today

/-- Two distinct table positions cannot both hold a current row of the
same business key. -/
def scdR (a b : DimUserRow) : Prop :=
  a.is_current = true → b.is_current = true → a.user_id ≠ b.user_id

instance : DecidableRel scdR := fun a b => by unfold scdR; infer_instance

/-- `count(is_current = true) <= 1` per business key. -/
def atMostOneCurrent (t : List DimUserRow) : Prop :=
  t.Pairwise scdR

/-- `effective_to` (`end_date`) is null exactly on current rows. -/
def endDateIffCurrent (t : List DimUserRow) : Prop :=
  ∀ r ∈ t, (r.end_date = none ↔ r.is_current = true)

/-- The SCD2 dimension invariant of the spec. -/
def scdInvariant (t : List DimUserRow) : Prop :=
  atMostOneCurrent t ∧ endDateIffCurrent t

instance (t : List DimUserRow) : Decidable (atMostOneCurrent t) := by
  unfold atMostOneCurrent
  infer_instance

instance (t : List DimUserRow) : Decidable (endDateIffCurrent t) := by
  unfold endDateIffCurrent
  infer_instance

instance (t : List DimUserRow) : Decidable (scdInvariant t) := by
  unfold scdInvariant
  infer_instance

/-! ## Fact builder — `src/transformation/star_schema.py`

`build_fact_transactions` joins Silver transactions against whichever Gold
dimension files exist (`_gold_exists`); a missing dimension contributes a
literal `-1` key and no join clause.  Timestamps are abstracted to day
numbers, so the `STRFTIME`-derived date key of an instant is the day
number itself. -/

structure DimProductRow where
  product_key : Int
  product_id : String
  product_name : Option String
  category : Option String
  price : ℚ
deriving DecidableEq

structure DimStoreRow where
  store_key : Int
  store_id : String
  region : String
deriving DecidableEq

structure FactTxnRow where
  transaction_id : String
  date_key : Option Nat
  timestamp : Option Nat
  amount : ℚ
  user_key : Option Int
  product_key : Option Int
  store_key : Option Int
  region : Option String
deriving DecidableEq

def dateKeyOfInstant (t : Nat) : Nat := t

/-- SQL `LEFT JOIN`: every left row paired with each matching right row,
or with `NULL` when no right row matches. -/
def leftJoin {α β : Type} (l : List α) (r : List β) (cond : α → β → Bool) :
    List (α × Option β) :=
  l.flatMap fun a =>
    match r.filter fun b => cond a b with
    | [] => [(a, none)]
    | m :: ms => (m :: ms).map fun b => (a, some b)

/-- The user-dimension join step of `build_fact_transactions`: a join
clause is added only when `dim_users.parquet` exists. -/
def factJoin1 (txns : List SilverTxnRow) (du : Option (List DimUserRow)) :
    List (SilverTxnRow × Option DimUserRow) :=
  match du with
  | none => txns.map fun t => (t, none)
  | some dus => leftJoin txns dus fun t d => t.user_id == some d.user_id && d.is_current

/-- The product-dimension join step. -/
def factJoin2 (l1 : List (SilverTxnRow × Option DimUserRow))
    (dp : Option (List DimProductRow)) :
    List ((SilverTxnRow × Option DimUserRow) × Option DimProductRow) :=
  match dp with
  | none => l1.map fun p => (p, none)
  | some dps => leftJoin l1 dps fun p d => p.1.product_id == d.product_id

/-- The store-dimension join step. -/
def factJoin3 (l2 : List ((SilverTxnRow × Option DimUserRow) × Option DimProductRow))
    (ds : Option (List DimStoreRow)) :
    List (((SilverTxnRow × Option DimUserRow) × Option DimProductRow) × Option DimStoreRow) :=
  match ds with
  | none => l2.map fun p => (p, none)
  | some dss => leftJoin l2 dss fun p d => p.1.1.store_id == some d.store_id

/-- The dynamically built join chain of `build_fact_transactions`. -/
def factJoined (txns : List SilverTxnRow) (du : Option (List DimUserRow))
    (dp : Option (List DimProductRow)) (ds : Option (List DimStoreRow)) :
    List (((SilverTxnRow × Option DimUserRow) × Option DimProductRow) × Option DimStoreRow) :=
  factJoin3 (factJoin2 (factJoin1 txns du) dp) ds

/-- `build_fact_transactions`: the fact rows written (the publish steps
are modelled separately by `factTxnPublishOps`).  Key columns are
`COALESCE(dim.key, -1)` when the dimension is available and the literal
`-1` otherwise. -/
def buildFactTransactions (txns : List SilverTxnRow) (du : Option (List DimUserRow))
    (dp : Option (List DimProductRow)) (ds : Option (List DimStoreRow)) :
    List FactTxnRow :=
  (factJoined txns du dp ds).map fun q =>
    { transaction_id := q.1.1.1.transaction_id
      date_key := q.1.1.1.timestamp.map dateKeyOfInstant
      timestamp := q.1.1.1.timestamp
      amount := q.1.1.1.amount
      user_key := match du with
        | none => some (-1)
        | some _ => some ((q.1.1.2.map DimUserRow.surrogate_key).getD (-1))
      product_key := match dp with
        | none => some (-1)
        | some _ => some ((q.1.2.map DimProductRow.product_key).getD (-1))
      store_key := match ds with
        | none => some (-1)
        | some _ => some ((q.2.map DimStoreRow.store_key).getD (-1))
      region := match ds with
        | none => some "Unknown"
        | some _ => some ((q.2.map DimStoreRow.region).getD "Unknown") }

/-! ## Helper lemmas -/

theorem mem_numberLines {β : Type} {l : List β} {k : Nat} {p : Nat × β} :
    p ∈ numberLines k l ↔ ∃ d : Nat, p.1 = k + d + 1 ∧ l[d]? = some p.2 := by
  induction l generalizing k with
  | nil => simp [numberLines]
  | cons x xs ih =>
    simp only [numberLines, List.mem_cons, ih]
    constructor
    · rintro (rfl | ⟨d, hd, hget⟩)
      · exact ⟨0, by simp⟩
      · exact ⟨d + 1, by omega, by simpa using hget⟩
    · rintro ⟨d, hd, hget⟩
      match d, hd with
      | 0, hd =>
        simp only [List.getElem?_cons_zero, Option.some.injEq] at hget
        left
        obtain ⟨i, b⟩ := p
        simp_all
      | d + 1, hd =>
        right
        exact ⟨d, by omega, by simpa using hget⟩

theorem mem_readNewEventsIdx {α : Type} {buffer : List (Option α)} {last : Nat}
    {p : Nat × α} :
    p ∈ readNewEventsIdx buffer last ↔
      last < p.1 ∧ buffer[p.1 - 1]? = some (some p.2) := by
  simp only [readNewEventsIdx, List.mem_filterMap]
  constructor
  · rintro ⟨q, hq, hf⟩
    obtain ⟨d, hd, hget⟩ := mem_numberLines.1 hq
    by_cases hcond : last < q.1
    · rw [if_pos hcond, Option.map_eq_some'] at hf
      obtain ⟨e, hq2, hfe⟩ := hf
      have h1 : q.1 = p.1 := congrArg Prod.fst hfe
      have h2 : e = p.2 := congrArg Prod.snd hfe
      subst h2
      rw [hq2] at hget
      constructor
      · omega
      · have hdx : p.1 - 1 = d := by omega
        rw [hdx]
        exact hget
    · rw [if_neg hcond] at hf
      exact absurd hf (by simp)
  · rintro ⟨hlt, hget⟩
    refine ⟨(p.1, some p.2), mem_numberLines.2 ⟨p.1 - 1, by omega, hget⟩, ?_⟩
    simp [hlt]

theorem cleanAllLoop_append (l1 l2 : List (String × Except String Bool)) :
    cleanAllLoop (l1 ++ l2) = cleanAllLoop l1 ++ cleanAllLoop l2 := by
  induction l1 with
  | nil => rfl
  | cons x xs ih => obtain ⟨n, r⟩ := x; simp [cleanAllLoop, ih]

theorem mem_numberFromInt {α : Type} {l : List α} {k : Int} {p : Int × α} :
    p ∈ numberFromInt k l ↔ ∃ d : Nat, p.1 = k + d + 1 ∧ l[d]? = some p.2 := by
  induction l generalizing k with
  | nil => simp [numberFromInt]
  | cons x xs ih =>
    simp only [numberFromInt, List.mem_cons, ih]
    constructor
    · rintro (rfl | ⟨d, hd, hget⟩)
      · exact ⟨0, by simp⟩
      · exact ⟨d + 1, by push_cast at hd ⊢; omega, by simpa using hget⟩
    · rintro ⟨d, hd, hget⟩
      match d, hd, hget with
      | 0, hd, hget =>
        simp only [List.getElem?_cons_zero, Option.some.injEq] at hget
        left
        obtain ⟨i, b⟩ := p
        simp only [Prod.mk.injEq]
        constructor
        · simpa using hd
        · exact hget.symm
      | d + 1, hd, hget =>
        right
        exact ⟨d, by push_cast at hd ⊢; omega, by simpa using hget⟩

theorem numberFromInt_bound {α : Type} {l : List α} {k : Int} {p : Int × α}
    (hp : p ∈ numberFromInt k l) : k < p.1 ∧ p.1 ≤ k + l.length := by
  obtain ⟨d, hd, hget⟩ := mem_numberFromInt.1 hp
  obtain ⟨hlt, -⟩ := List.getElem?_eq_some_iff.1 hget
  constructor <;> [omega; (push_cast at hd ⊢; omega)]

theorem nthElem_mem {α : Type} {l : List α} {d : Nat} {a : α}
    (h : l[d]? = some a) : a ∈ l := by
  obtain ⟨hlt, he⟩ := List.getElem?_eq_some_iff.1 h
  exact he ▸ List.getElem_mem hlt

theorem numberFromInt_covers {α : Type} {l : List α} {k : Int} {j : Int}
    (h1 : k < j) (h2 : j ≤ k + l.length) : ∃ a, (j, a) ∈ numberFromInt k l := by
  have hd : (j - k - 1).toNat < l.length := by omega
  refine ⟨l.get ⟨(j - k - 1).toNat, hd⟩,
    mem_numberFromInt.2 ⟨(j - k - 1).toNat, by omega, ?_⟩⟩
  rw [List.getElem?_eq_getElem hd]
  simp [List.get_eq_getElem]

theorem mem_sqlJoin {α β : Type} {l1 : List α} {l2 : List β} {c : α → β → Bool}
    {p : α × β} :
    p ∈ sqlJoin l1 l2 c ↔ p.1 ∈ l1 ∧ p.2 ∈ l2 ∧ c p.1 p.2 = true := by
  obtain ⟨a, b⟩ := p
  simp only [sqlJoin, List.mem_flatMap, List.mem_map, List.mem_filter, Prod.mk.injEq]
  constructor
  · rintro ⟨x, hx, y, ⟨hy, hc⟩, rfl, rfl⟩
    exact ⟨hx, hy, hc⟩
  · rintro ⟨ha, hb, hc⟩
    exact ⟨a, ha, b, ⟨hb, hc⟩, rfl, rfl⟩

theorem sk_le_foldl (l : List DimUserRow) (a : Int) :
    a ≤ l.foldl (fun m r => max m r.surrogate_key) a ∧
      ∀ r ∈ l, r.surrogate_key ≤ l.foldl (fun m r => max m r.surrogate_key) a := by
  induction l generalizing a with
  | nil => simp
  | cons x xs ih =>
    refine ⟨le_trans (le_max_left a x.surrogate_key) (ih (max a x.surrogate_key)).1, ?_⟩
    intro r hr
    rcases List.mem_cons.1 hr with rfl | hr
    · exact le_trans (le_max_right a r.surrogate_key) (ih _).1
    · exact (ih _).2 r hr

theorem sk_le_maxSk {existing : List DimUserRow} {r : DimUserRow} (hr : r ∈ existing) :
    r.surrogate_key ≤ maxSk existing := by
  match existing, hr with
  | e :: rest, hr =>
    unfold maxSk
    rcases List.mem_cons.1 hr with rfl | hr
    · exact (sk_le_foldl rest r.surrogate_key).1
    · exact (sk_le_foldl rest e.surrogate_key).2 r hr

theorem mem_unchangedRows {existing : List DimUserRow} {incoming : List SilverUserRow}
    {r : DimUserRow} :
    r ∈ unchangedRows existing incoming ↔
      r ∈ existing ∧ r.is_current = true ∧
        ∃ i ∈ incoming, r.user_id = i.user_id ∧ r.city = i.city := by
  simp only [unchangedRows, List.mem_map, List.mem_filter]
  constructor
  · rintro ⟨⟨e, i⟩, ⟨hj, hc⟩, rfl⟩
    obtain ⟨he, hi, huid⟩ := mem_sqlJoin.1 hj
    simp only [Bool.and_eq_true, beq_iff_eq] at hc huid
    exact ⟨he, hc.1, i, hi, huid, hc.2⟩
  · rintro ⟨he, hcur, i, hi, huid, hcity⟩
    exact ⟨(r, i), ⟨mem_sqlJoin.2 ⟨he, hi, by simpa using huid⟩,
      by simp [hcur, hcity]⟩, rfl⟩

theorem mem_closedRows {existing : List DimUserRow} {incoming : List SilverUserRow}
    {today : Nat} {r : DimUserRow} :
    r ∈ closedRows existing incoming today ↔
      ∃ e ∈ existing, ∃ i ∈ incoming, e.is_current = true ∧ e.user_id = i.user_id ∧
        e.city ≠ i.city ∧ r = { e with end_date := some today, is_current := false } := by
  simp only [closedRows, List.mem_map, List.mem_filter]
  constructor
  · rintro ⟨⟨e, i⟩, ⟨hj, hc⟩, rfl⟩
    obtain ⟨he, hi, huid⟩ := mem_sqlJoin.1 hj
    simp only [Bool.and_eq_true, bne_iff_ne, ne_eq, beq_iff_eq] at hc huid
    exact ⟨e, he, i, hi, hc.1, huid, hc.2, rfl⟩
  · rintro ⟨e, he, i, hi, hcur, huid, hcity, rfl⟩
    exact ⟨(e, i), ⟨mem_sqlJoin.2 ⟨he, hi, by simpa using huid⟩,
      by simp [hcur, hcity]⟩, rfl⟩

theorem mem_newVersionSrc {existing : List DimUserRow} {incoming : List SilverUserRow}
    {i : SilverUserRow} :
    i ∈ newVersionSrc existing incoming ↔
      i ∈ incoming ∧ ∃ e ∈ existing, e.is_current = true ∧ i.user_id = e.user_id ∧
        e.city ≠ i.city := by
  simp only [newVersionSrc, List.mem_map, List.mem_filter]
  constructor
  · rintro ⟨⟨i0, e⟩, ⟨hj, hc⟩, rfl⟩
    obtain ⟨hi, he, huid⟩ := mem_sqlJoin.1 hj
    simp only [Bool.and_eq_true, bne_iff_ne, ne_eq, beq_iff_eq] at hc huid
    exact ⟨hi, e, he, hc.1, huid, hc.2⟩
  · rintro ⟨hi, e, he, hcur, huid, hcity⟩
    exact ⟨(i, e), ⟨mem_sqlJoin.2 ⟨hi, he, by simpa using huid⟩,
      by simp [hcur, hcity]⟩, rfl⟩

theorem mem_brandNewSrc {existing : List DimUserRow} {incoming : List SilverUserRow}
    {i : SilverUserRow} :
    i ∈ brandNewSrc existing incoming ↔
      i ∈ incoming ∧ ∀ e ∈ existing, e.user_id ≠ i.user_id := by
  simp [brandNewSrc, List.mem_filter, List.any_eq_false]

theorem mem_alreadyClosedRows {existing : List DimUserRow} {r : DimUserRow} :
    r ∈ alreadyClosedRows existing ↔ r ∈ existing ∧ r.is_current = false := by
  simp [alreadyClosedRows, List.mem_filter]

theorem mem_sortByUserId {l : List SilverUserRow} {i : SilverUserRow} :
    i ∈ sortByUserId l ↔ i ∈ l :=
  (List.perm_insertionSort _ l).mem_iff

theorem mem_newVersionRows {existing : List DimUserRow} {incoming : List SilverUserRow}
    {today : Nat} {r : DimUserRow} :
    r ∈ newVersionRows existing incoming today ↔
      ∃ k, ∃ i ∈ sortByUserId (newVersionSrc existing incoming),
        (k, i) ∈ numberFromInt (maxSk existing)
            (sortByUserId (newVersionSrc existing incoming)) ∧
        r = { surrogate_key := k, user_id := i.user_id, name := i.name, email := i.email,
              city := i.city, effective_date := some today, end_date := none,
              is_current := true } := by
  simp only [newVersionRows, List.mem_map]
  constructor
  · rintro ⟨⟨k, i⟩, hm, rfl⟩
    obtain ⟨d, -, hget⟩ := mem_numberFromInt.1 hm
    exact ⟨k, i, nthElem_mem hget, hm, rfl⟩
  · rintro ⟨k, i, -, hm, rfl⟩
    exact ⟨(k, i), hm, rfl⟩

theorem mem_brandNewRows {existing : List DimUserRow} {incoming : List SilverUserRow}
    {r : DimUserRow} :
    r ∈ brandNewRows existing incoming ↔
      ∃ k, ∃ i ∈ sortByUserId (brandNewSrc existing incoming),
        (k, i) ∈ numberFromInt (maxSk existing + (newVersionSrc existing incoming).length)
            (sortByUserId (brandNewSrc existing incoming)) ∧
        r = { surrogate_key := k, user_id := i.user_id, name := i.name, email := i.email,
              city := i.city, effective_date := i.signup_date, end_date := none,
              is_current := true } := by
  simp only [brandNewRows, List.mem_map]
  constructor
  · rintro ⟨⟨k, i⟩, hm, rfl⟩
    obtain ⟨d, -, hget⟩ := mem_numberFromInt.1 hm
    exact ⟨k, i, nthElem_mem hget, hm, rfl⟩
  · rintro ⟨k, i, -, hm, rfl⟩
    exact ⟨(k, i), hm, rfl⟩

theorem mem_scdMerge {existing : List DimUserRow} {incoming : List SilverUserRow}
    {today : Nat} {r : DimUserRow} :
    r ∈ scdMerge existing incoming today ↔
      r ∈ unchangedRows existing incoming ∨ r ∈ closedRows existing incoming today ∨
      r ∈ newVersionRows existing incoming today ∨ r ∈ brandNewRows existing incoming ∨
      r ∈ alreadyClosedRows existing := by
  unfold scdMerge
  rw [(List.perm_insertionSort _ _).mem_iff]
  simp [List.mem_append, or_assoc]

theorem scdR_symm : Symmetric scdR := fun _ _ h hb ha heq => h ha hb heq.symm

theorem scdR_of_left_not_current {a b : DimUserRow} (h : a.is_current = false) :
    scdR a b := by
  intro ha
  rw [h] at ha
  exact absurd ha (by simp)

theorem scdR_of_right_not_current {a b : DimUserRow} (h : b.is_current = false) :
    scdR a b := by
  intro _ hb
  rw [h] at hb
  exact absurd hb (by simp)

theorem pairwise_scdR_of_all_not_current {l : List DimUserRow}
    (h : ∀ b ∈ l, b.is_current = false) : l.Pairwise scdR := by
  induction l with
  | nil => exact List.Pairwise.nil
  | cons x xs ih =>
    refine List.pairwise_cons.2
      ⟨fun y _ => scdR_of_left_not_current (h x (List.mem_cons_self x xs)),
        ih fun b hb => h b (List.mem_cons.2 (Or.inr hb))⟩

/-- Two current rows of an invariant-satisfying table with the same
business key are the same row value. -/
theorem current_eq_of_atMostOne {existing : List DimUserRow}
    (h : atMostOneCurrent existing) {x y : DimUserRow}
    (hx : x ∈ existing) (hy : y ∈ existing) (hxc : x.is_current = true)
    (hyc : y.is_current = true) (huid : x.user_id = y.user_id) : x = y := by
  by_contra hne
  exact (h.forall scdR_symm hx hy hne) hxc hyc huid

/-- In a table with pairwise-distinct business keys, rows with the same
key are the same row value. -/
theorem uid_eq_unique {incoming : List SilverUserRow}
    (h : (incoming.map SilverUserRow.user_id).Nodup) {x y : SilverUserRow}
    (hx : x ∈ incoming) (hy : y ∈ incoming) (huid : x.user_id = y.user_id) : x = y := by
  by_contra hne
  have hp : incoming.Pairwise fun a b => a.user_id ≠ b.user_id := List.pairwise_map.1 h
  have hsymm : Symmetric fun a b : SilverUserRow => a.user_id ≠ b.user_id :=
    fun _ _ hne2 heq => hne2 heq.symm
  exact hp.forall hsymm hx hy hne huid

theorem pairwise_filter_length_le_one {α : Type} {R : α → α → Prop} {p : α → Bool}
    {l : List α} (h : l.Pairwise R)
    (hcontra : ∀ x y, p x = true → p y = true → R x y → False) :
    (l.filter p).length ≤ 1 := by
  have hp : (l.filter p).Pairwise R := h.filter p
  match hfl : l.filter p with
  | [] => simp
  | [a] => simp
  | a :: b :: rest =>
    rw [hfl] at hp
    have hR : R a b := List.rel_of_pairwise_cons hp (List.mem_cons_self b rest)
    have hamem : a ∈ l.filter p := by rw [hfl]; simp
    have hbmem : b ∈ l.filter p := by rw [hfl]; simp
    exact (hcontra a b (List.of_mem_filter hamem) (List.of_mem_filter hbmem) hR).elim

theorem filter_uid_eq_length_le_one {incoming : List SilverUserRow} {u : String}
    (h : (incoming.map SilverUserRow.user_id).Nodup) :
    (incoming.filter fun i => u == i.user_id).length ≤ 1 := by
  have hp : incoming.Pairwise fun a b => a.user_id ≠ b.user_id := List.pairwise_map.1 h
  apply pairwise_filter_length_le_one hp
  intro x y hx hy hR
  exact hR (beq_iff_eq.1 hx ▸ beq_iff_eq.1 hy ▸ rfl)

theorem length_le_one_shape {α : Type} {l : List α} {e : α} (hlen : l.length ≤ 1)
    (hall : ∀ x ∈ l, x = e) : l = [] ∨ l = [e] := by
  match l, hlen with
  | [], _ => exact Or.inl rfl
  | [a], _ => exact Or.inr (by rw [hall a (List.mem_singleton_self a)])
  | a :: b :: rest, hlen => simp at hlen

/-- A join whose `WHERE`-filtered match list has at most one element per
left row projects (on the left component) to a sublist of the left
table. -/
theorem sqlJoin_filter_fst_sublist {α β : Type} (ex : List α) (inc : List β)
    (c : α → β → Bool) (W : α × β → Bool)
    (h : ∀ a ∈ ex, ((inc.filter (c a)).filter fun b => W (a, b)).length ≤ 1) :
    List.Sublist (((sqlJoin ex inc c).filter W).map Prod.fst) ex := by
  induction ex with
  | nil => simp [sqlJoin]
  | cons a ex ih =>
    have hstep : sqlJoin (a :: ex) inc c =
        ((inc.filter (c a)).map fun b => (a, b)) ++ sqlJoin ex inc c := by
      unfold sqlJoin
      rw [List.flatMap_cons]
    rw [hstep, List.filter_append, List.map_append]
    have hhead : ((((inc.filter (c a)).map fun b => (a, b)).filter W).map Prod.fst) =
        (((inc.filter (c a)).filter fun b => W (a, b)).map fun _ => a) := by
      rw [List.filter_map, List.map_map]
      rfl
    rw [hhead]
    have hlen3 : ((((inc.filter (c a)).filter fun b => W (a, b)).map fun _ => a).length ≤ 1) := by
      rw [List.length_map]
      exact h a (List.mem_cons_self a ex)
    have hall : ∀ x ∈ ((inc.filter (c a)).filter fun b => W (a, b)).map fun _ => a, x = a := by
      intro x hx
      obtain ⟨b, -, rfl⟩ := List.mem_map.1 hx
      rfl
    rcases length_le_one_shape hlen3 hall with heq | heq
    · rw [heq, List.nil_append]
      exact (ih fun x hx => h x (List.mem_cons.2 (Or.inr hx))).cons a
    · rw [heq, List.singleton_append]
      exact (ih fun x hx => h x (List.mem_cons.2 (Or.inr hx))).cons₂ a

theorem unchangedRows_sublist {existing : List DimUserRow}
    {incoming : List SilverUserRow}
    (hInc : (incoming.map SilverUserRow.user_id).Nodup) :
    List.Sublist (unchangedRows existing incoming) existing := by
  unfold unchangedRows
  apply sqlJoin_filter_fst_sublist
  intro e _
  calc ((incoming.filter fun i => e.user_id == i.user_id).filter
          fun i => e.is_current && e.city == i.city).length
      ≤ (incoming.filter fun i => e.user_id == i.user_id).length :=
        (List.filter_sublist _).length_le
    _ ≤ 1 := filter_uid_eq_length_le_one hInc

theorem newVersionSrc_sublist {existing : List DimUserRow}
    {incoming : List SilverUserRow} (hA : atMostOneCurrent existing) :
    List.Sublist (newVersionSrc existing incoming) incoming := by
  unfold newVersionSrc
  apply sqlJoin_filter_fst_sublist
  intro i _
  rw [List.filter_filter]
  apply pairwise_filter_length_le_one hA
  intro x y hx hy hR
  simp only [Bool.and_eq_true, beq_iff_eq, bne_iff_ne, ne_eq] at hx hy
  obtain ⟨⟨hxcur, -⟩, hxuid⟩ := hx
  obtain ⟨⟨hycur, -⟩, hyuid⟩ := hy
  exact hR hxcur hycur (hxuid.symm.trans hyuid)

theorem pairwise_numberFromInt {α : Type} {S : α → α → Prop} {l : List α} {k : Int}
    (h : l.Pairwise S) : (numberFromInt k l).Pairwise fun p q => S p.2 q.2 := by
  induction l generalizing k with
  | nil => exact List.Pairwise.nil
  | cons x xs ih =>
    rcases List.pairwise_cons.1 h with ⟨hx, hxs⟩
    refine List.pairwise_cons.2 ⟨?_, ih hxs⟩
    intro q hq
    obtain ⟨d, -, hget⟩ := mem_numberFromInt.1 hq
    exact hx q.2 (nthElem_mem hget)

theorem uidNe_symm : Symmetric fun a b : SilverUserRow => a.user_id ≠ b.user_id :=
  fun _ _ hne heq => hne heq.symm

theorem newVersionRows_spec {existing : List DimUserRow} {incoming : List SilverUserRow}
    {today : Nat} {r : DimUserRow} (h : r ∈ newVersionRows existing incoming today) :
    r.is_current = true ∧ r.end_date = none ∧
      ∃ i ∈ incoming, r.user_id = i.user_id ∧ r.city = i.city ∧
        ∃ e ∈ existing, e.is_current = true ∧ i.user_id = e.user_id ∧ e.city ≠ i.city := by
  obtain ⟨k, i, hisort, -, heq⟩ := mem_newVersionRows.1 h
  obtain ⟨hi, e, he, hec, huid, hcity⟩ := mem_newVersionSrc.1 (mem_sortByUserId.1 hisort)
  subst heq
  exact ⟨rfl, rfl, i, hi, rfl, rfl, e, he, hec, huid, hcity⟩

theorem brandNewRows_spec {existing : List DimUserRow} {incoming : List SilverUserRow}
    {r : DimUserRow} (h : r ∈ brandNewRows existing incoming) :
    r.is_current = true ∧ r.end_date = none ∧
      ∃ i ∈ incoming, r.user_id = i.user_id ∧ ∀ e ∈ existing, e.user_id ≠ i.user_id := by
  obtain ⟨k, i, hisort, -, heq⟩ := mem_brandNewRows.1 h
  obtain ⟨hi, hno⟩ := mem_brandNewSrc.1 (mem_sortByUserId.1 hisort)
  subst heq
  exact ⟨rfl, rfl, i, hi, rfl, hno⟩

theorem closedRows_not_current {existing : List DimUserRow}
    {incoming : List SilverUserRow} {today : Nat} {b : DimUserRow}
    (hb : b ∈ closedRows existing incoming today) : b.is_current = false := by
  obtain ⟨e, -, i, -, -, -, -, heq⟩ := mem_closedRows.1 hb
  subst heq
  rfl

theorem pairwise_scdR_newVersionRows {existing : List DimUserRow}
    {incoming : List SilverUserRow} {today : Nat}
    (hA : atMostOneCurrent existing)
    (hInc : (incoming.map SilverUserRow.user_id).Nodup) :
    (newVersionRows existing incoming today).Pairwise scdR := by
  unfold newVersionRows
  apply List.pairwise_map.2
  have hnd : ((newVersionSrc existing incoming).map SilverUserRow.user_id).Nodup :=
    hInc.sublist ((newVersionSrc_sublist hA).map SilverUserRow.user_id)
  have hpw : (newVersionSrc existing incoming).Pairwise
      (fun a b => a.user_id ≠ b.user_id) := List.pairwise_map.1 hnd
  have hsorted : (sortByUserId (newVersionSrc existing incoming)).Pairwise
      (fun a b => a.user_id ≠ b.user_id) :=
    hpw.perm (List.perm_insertionSort _ _).symm fun hab => uidNe_symm hab
  exact (pairwise_numberFromInt hsorted).imp fun hne _ _ => hne

theorem pairwise_scdR_brandNewRows {existing : List DimUserRow}
    {incoming : List SilverUserRow}
    (hInc : (incoming.map SilverUserRow.user_id).Nodup) :
    (brandNewRows existing incoming).Pairwise scdR := by
  unfold brandNewRows
  apply List.pairwise_map.2
  have hnd : ((brandNewSrc existing incoming).map SilverUserRow.user_id).Nodup :=
    hInc.sublist ((List.filter_sublist _).map SilverUserRow.user_id)
  have hpw : (brandNewSrc existing incoming).Pairwise
      (fun a b => a.user_id ≠ b.user_id) := List.pairwise_map.1 hnd
  have hsorted : (sortByUserId (brandNewSrc existing incoming)).Pairwise
      (fun a b => a.user_id ≠ b.user_id) :=
    hpw.perm (List.perm_insertionSort _ _).symm fun hab => uidNe_symm hab
  exact (pairwise_numberFromInt hsorted).imp fun hne _ _ => hne

theorem cross_unchanged_newVersion {existing : List DimUserRow}
    {incoming : List SilverUserRow} {today : Nat}
    (hA : atMostOneCurrent existing)
    (hInc : (incoming.map SilverUserRow.user_id).Nodup) :
    ∀ a ∈ unchangedRows existing incoming,
      ∀ b ∈ newVersionRows existing incoming today, scdR a b := by
  intro a ha b hb hacur hbcur heq
  obtain ⟨haex, hacur2, ia, hia, huidA, hcityA⟩ := mem_unchangedRows.1 ha
  obtain ⟨-, -, ib, hib, huidB, hcityB, eb, heb, hebc, huidEB, hcityEB⟩ :=
    newVersionRows_spec hb
  have haeb : a = eb :=
    current_eq_of_atMostOne hA haex heb hacur2 hebc (by rw [heq, huidB, huidEB])
  have hiab : ia = ib := uid_eq_unique hInc hia hib (by rw [← huidA, heq, huidB])
  apply hcityEB
  rw [← haeb, ← hiab, ← hcityA]

theorem cross_unchanged_brandNew {existing : List DimUserRow}
    {incoming : List SilverUserRow} :
    ∀ a ∈ unchangedRows existing incoming,
      ∀ b ∈ brandNewRows existing incoming, scdR a b := by
  intro a ha b hb _ _ heq
  obtain ⟨haex, -, -, -, -, -⟩ := mem_unchangedRows.1 ha
  obtain ⟨-, -, i, hi, huidB, hno⟩ := brandNewRows_spec hb
  exact hno a haex (heq.trans huidB)

theorem cross_newVersion_brandNew {existing : List DimUserRow}
    {incoming : List SilverUserRow} {today : Nat} :
    ∀ a ∈ newVersionRows existing incoming today,
      ∀ b ∈ brandNewRows existing incoming, scdR a b := by
  intro a ha b hb _ _ heq
  obtain ⟨-, -, ia, hia, huidA, -, ea, hea, -, huidEA, -⟩ := newVersionRows_spec ha
  obtain ⟨-, -, ib, hib, huidB, hno⟩ := brandNewRows_spec hb
  exact hno ea hea (by rw [← huidEA, ← huidA, heq, huidB])

theorem atMostOneCurrent_scdMerge {existing : List DimUserRow}
    {incoming : List SilverUserRow} {today : Nat}
    (hA : atMostOneCurrent existing)
    (hInc : (incoming.map SilverUserRow.user_id).Nodup) :
    atMostOneCurrent (scdMerge existing incoming today) := by
  unfold atMostOneCurrent scdMerge
  have hBnc : ∀ b ∈ closedRows existing incoming today, b.is_current = false :=
    fun b hb => closedRows_not_current hb
  have hEnc : ∀ b ∈ alreadyClosedRows existing, b.is_current = false :=
    fun b hb => (mem_alreadyClosedRows.1 hb).2
  refine ((List.perm_insertionSort _ _).pairwise_iff fun h => scdR_symm h).2 ?_
  refine List.pairwise_append.2 ⟨?_, pairwise_scdR_of_all_not_current hEnc, ?_⟩
  · refine List.pairwise_append.2 ⟨?_, pairwise_scdR_brandNewRows hInc, ?_⟩
    · refine List.pairwise_append.2 ⟨?_, pairwise_scdR_newVersionRows hA hInc, ?_⟩
      · refine List.pairwise_append.2
          ⟨List.Pairwise.sublist (unchangedRows_sublist hInc) hA,
            pairwise_scdR_of_all_not_current hBnc, ?_⟩
        intro a _ b hb
        exact scdR_of_right_not_current (hBnc b hb)
      · intro a ha b hb
        rcases List.mem_append.1 ha with haA | haB
        · exact cross_unchanged_newVersion hA hInc a haA b hb
        · exact scdR_of_left_not_current (hBnc a haB)
    · intro a ha b hb
      rcases List.mem_append.1 ha with ha2 | haC
      · rcases List.mem_append.1 ha2 with haA | haB
        · exact cross_unchanged_brandNew a haA b hb
        · exact scdR_of_left_not_current (hBnc a haB)
      · exact cross_newVersion_brandNew a haC b hb
  · intro a _ b hb
    exact scdR_of_right_not_current (hEnc b hb)

theorem endDateIffCurrent_scdMerge {existing : List DimUserRow}
    {incoming : List SilverUserRow} {today : Nat}
    (hE : endDateIffCurrent existing) :
    endDateIffCurrent (scdMerge existing incoming today) := by
  intro r hr
  rcases mem_scdMerge.1 hr with hu | hc | hn | hb | ha
  · exact hE r (mem_unchangedRows.1 hu).1
  · obtain ⟨e, -, i, -, -, -, -, heq⟩ := mem_closedRows.1 hc
    subst heq
    simp
  · obtain ⟨hcur, hend, -⟩ := newVersionRows_spec hn
    rw [hcur, hend]
    simp
  · obtain ⟨hcur, hend, -⟩ := brandNewRows_spec hb
    rw [hcur, hend]
    simp
  · exact hE r (mem_alreadyClosedRows.1 ha).1

theorem initialLoad_invariant {silver : List SilverUserRow}
    (hids : (silver.map SilverUserRow.user_id).Nodup) :
    scdInvariant (initialLoad silver) := by
  constructor
  · unfold atMostOneCurrent initialLoad
    apply List.pairwise_map.2
    have hpw : silver.Pairwise (fun a b => a.user_id ≠ b.user_id) :=
      List.pairwise_map.1 hids
    have hsorted : (sortByUserId silver).Pairwise (fun a b => a.user_id ≠ b.user_id) :=
      hpw.perm (List.perm_insertionSort _ _).symm fun hab => uidNe_symm hab
    exact (pairwise_numberFromInt hsorted).imp fun hne _ _ => hne
  · intro r hr
    simp only [initialLoad, List.mem_map] at hr
    obtain ⟨p, -, rfl⟩ := hr
    simp

theorem leftJoin_exists {α β : Type} (l : List α) (r : List β) (c : α → β → Bool)
    {a : α} (ha : a ∈ l) : ∃ ob, (a, ob) ∈ leftJoin l r c := by
  match hf : r.filter fun b => c a b with
  | [] =>
    refine ⟨none, List.mem_flatMap.2 ⟨a, ha, ?_⟩⟩
    rw [hf]
    simp
  | m :: ms =>
    refine ⟨some m, List.mem_flatMap.2 ⟨a, ha, ?_⟩⟩
    rw [hf]
    simp

theorem leftJoin_none_of_no_match {α β : Type} {l : List α} {r : List β}
    {c : α → β → Bool} {a : α} (ha : a ∈ l) (hno : r.filter (fun b => c a b) = []) :
    (a, none) ∈ leftJoin l r c := by
  refine List.mem_flatMap.2 ⟨a, ha, ?_⟩
  rw [hno]
  simp

theorem factJoin1_exists {txns : List SilverTxnRow} {du : Option (List DimUserRow)}
    {t : SilverTxnRow} (ht : t ∈ txns) : ∃ odu, (t, odu) ∈ factJoin1 txns du := by
  match du with
  | none => exact ⟨none, List.mem_map.2 ⟨t, ht, rfl⟩⟩
  | some dus => exact leftJoin_exists txns dus _ ht

theorem factJoin2_exists {l1 : List (SilverTxnRow × Option DimUserRow)}
    {dp : Option (List DimProductRow)} {q : SilverTxnRow × Option DimUserRow}
    (hq : q ∈ l1) : ∃ odp, (q, odp) ∈ factJoin2 l1 dp := by
  match dp with
  | none => exact ⟨none, List.mem_map.2 ⟨q, hq, rfl⟩⟩
  | some dps => exact leftJoin_exists l1 dps _ hq

theorem factJoin2_none_of_no_match {l1 : List (SilverTxnRow × Option DimUserRow)}
    {dps : List DimProductRow} {q : SilverTxnRow × Option DimUserRow} (hq : q ∈ l1)
    (hno : ∀ d ∈ dps, d.product_id ≠ q.1.product_id) :
    (q, none) ∈ factJoin2 l1 (some dps) := by
  apply leftJoin_none_of_no_match hq
  rw [List.filter_eq_nil_iff]
  intro d hd
  simp only [beq_iff_eq]
  exact fun h => hno d hd h.symm

theorem factJoin3_exists {l2 : List ((SilverTxnRow × Option DimUserRow) × Option DimProductRow)}
    {ds : Option (List DimStoreRow)}
    {q : (SilverTxnRow × Option DimUserRow) × Option DimProductRow}
    (hq : q ∈ l2) : ∃ ods, (q, ods) ∈ factJoin3 l2 ds := by
  match ds with
  | none => exact ⟨none, List.mem_map.2 ⟨q, hq, rfl⟩⟩
  | some dss => exact leftJoin_exists l2 dss _ hq

theorem mem_of_mem_distinctOnAux {α κ : Type} [DecidableEq κ] {key : α → κ}
    {seen : List κ} {l : List α} {x : α} (hx : x ∈ distinctOnAux key seen l) :
    x ∈ l := by
  induction l generalizing seen with
  | nil => exact absurd hx (by simp [distinctOnAux])
  | cons a rest ih =>
    unfold distinctOnAux at hx
    split at hx
    · exact List.mem_cons.2 (Or.inr (ih hx))
    · rcases List.mem_cons.1 hx with rfl | hx2
      · exact List.mem_cons_self x rest
      · exact List.mem_cons.2 (Or.inr (ih hx2))

theorem mem_of_mem_distinctOn {α κ : Type} [DecidableEq κ] {key : α → κ}
    {l : List α} {x : α} (hx : x ∈ distinctOn key l) : x ∈ l :=
  mem_of_mem_distinctOnAux hx

theorem tsExpr_independent_of_now {cols : List String} {now1 now2 : Nat}
    (hts : candExprs cols tsCols tryCastTimestamp ≠ []) (r : RawRow) :
    tsExpr cols now1 r = tsExpr cols now2 r := by
  unfold tsExpr
  match hc : candExprs cols tsCols tryCastTimestamp with
  | [] => exact absurd hc hts
  | _ :: _ => rfl

theorem contains_eq_false_of_not_mem {l : List String} {a : String} (h : a ∉ l) :
    l.contains a = false := by
  cases hc : l.contains a
  · rfl
  · exact absurd (List.mem_of_elem_eq_true hc) h

theorem amtExpr_amount_first {cols : List String} (hc : cols.contains "amount" = true)
    {r : RawRow} {v : ℚ} (hv : tryCastDouble (r "amount") = some v) :
    amtExpr cols r = v := by
  unfold amtExpr amtCandidates
  rw [hc]
  simp [hv, sqlCoalesce]

theorem amtExpr_price_quantity {cols : List String}
    (hcA : cols.contains "amount" = true) (hcP : cols.contains "price" = true)
    (hcQ : cols.contains "quantity" = true) {r : RawRow}
    (hnull : r "amount" = CellVal.null) {p q : ℚ}
    (hp : tryCastDouble (r "price") = some p)
    (hq : tryCastDouble (r "quantity") = some q) :
    amtExpr cols r = p * q := by
  unfold amtExpr amtCandidates
  rw [hcA, hcP, hcQ]
  simp only [if_true, Bool.and_self, List.singleton_append, List.cons_append,
    List.nil_append, List.map_cons]
  rw [hnull, hp, hq]
  simp [tryCastDouble, optMul, sqlCoalesce]

/-! ## Claims -/

/-- C1 (code_bug evidence): `process_micro_batch` persists the buffer's
total line count at marker-write time — the log's current tail — not the
highest offset of the batch it read.  Concretely: with the marker at `0`,
the consumer reads a two-line buffer; a producer appends a third line
before the marker update; the code persists `3` (the tail) where the
claim requires `2` (the highest observed offset), and the third event is
then never delivered (`read_new_events` past marker `3` is empty).  The
failure half of the claim does hold: with the raw-layer write failing,
the marker stays `0`. -/
theorem c1_cursor_set_to_tail_not_batch_high_offset :
    processMicroBatchMarker ([some 10, some 20] : List (Option Nat))
        [some 10, some 20, some 30] true 0 = 3 ∧
    ([some 10, some 20] : List (Option Nat)).length = 2 ∧
    readNewEventsIdx ([some 10, some 20, some 30] : List (Option Nat)) 3 = [] ∧
    processMicroBatchMarker ([some 10, some 20] : List (Option Nat))
        [some 10, some 20, some 30] false 0 = 0 := by
  decide

/-- C2 (code_bug evidence): the publish sequence of
`build_fact_transactions` deletes the old published file *before* the
rename, so the trace contains a state where the published path holds
neither the complete old table nor the complete new one (it is missing);
`build_fact_inventory` deletes the old directory and then writes
partition files directly into the published path, so a state with a
partially written table (first partition only) is reader-visible.  The
final states do hold the new tables. -/
theorem c2_publish_window_with_incomplete_table :
    (∃ s ∈ pubTrace (⟨some [1], none⟩ : PubFS (List Nat)) (factTxnPublishOps [2]),
        s.published ≠ some [1] ∧ s.published ≠ some [2]) ∧
    (pubTrace (⟨some [1], none⟩ : PubFS (List Nat)) (factTxnPublishOps [2])).getLast? =
      some ⟨some [2], none⟩ ∧
    (∃ s ∈ factInventoryTrace (⟨some [9], none⟩ : PubFS (List Nat))
        (factInventoryPublishOps [[1], [2]]),
        s.published = some [1] ∧ some [1] ≠ (some [9] : Option (List Nat)) ∧
          some [1] ≠ (some [1, 2] : Option (List Nat))) ∧
    (factInventoryTrace (⟨some [9], none⟩ : PubFS (List Nat))
        (factInventoryPublishOps [[1], [2]])).getLast? =
      some ⟨some [1, 2], none⟩ := by
  decide

/-- C8: if no raw artifact matches an entity's pattern its cleaner
returns the skip value `False` (not an error), and the `clean_all` loop
records a raising cleaner as `False` while still running every remaining
entity's cleaner — one entity's failure never prevents another entity
from being cleaned, and all five fixed entities always get a result. -/
theorem clean_all_isolates_entity_failures
    (pre post : List (String × Except String Bool)) (n msg : String)
    (b tx us pr inv sh : Except String Bool) :
    cleanEntity false b = Except.ok false ∧
    cleanAllLoop (pre ++ (n, Except.error msg) :: post) =
      cleanAllLoop pre ++ (n, false) :: cleanAllLoop post ∧
    (cleanAll tx us pr inv sh).map Prod.fst =
      ["transactions", "users", "products", "inventory", "shipments"] := by
  refine ⟨rfl, ?_, rfl⟩
  rw [cleanAllLoop_append]
  rfl

/-- C5: every fact row built by `build_fact_transactions` has non-null
user/product/store surrogate key columns (a real key or the sentinel
`-1` when the dimension is missing or the reference unmatched); every
Silver transaction appears in the output (left joins drop no rows); and
a transaction whose product reference has no match in an available
product dimension appears with `product_key = -1`, not dropped. -/
theorem fact_rows_total_with_sentinels
    (txns : List SilverTxnRow) (du : Option (List DimUserRow))
    (dp : Option (List DimProductRow)) (ds : Option (List DimStoreRow)) :
    (∀ f ∈ buildFactTransactions txns du dp ds,
      f.user_key.isSome = true ∧ f.product_key.isSome = true ∧
        f.store_key.isSome = true) ∧
    (∀ t ∈ txns, ∃ f ∈ buildFactTransactions txns du dp ds,
      f.transaction_id = t.transaction_id ∧ f.amount = t.amount) ∧
    (∀ t ∈ txns, ∀ dps, dp = some dps →
      (∀ d ∈ dps, d.product_id ≠ t.product_id) →
      ∃ f ∈ buildFactTransactions txns du dp ds,
        f.transaction_id = t.transaction_id ∧ f.product_key = some (-1)) := by
  refine ⟨?_, ?_, ?_⟩
  · intro f hf
    obtain ⟨q, -, rfl⟩ := List.mem_map.1 hf
    refine ⟨?_, ?_, ?_⟩
    · rcases du with - | dus <;> rfl
    · rcases dp with - | dps <;> rfl
    · rcases ds with - | dss <;> rfl
  · intro t ht
    obtain ⟨odu, h1⟩ := factJoin1_exists ht
    obtain ⟨odp, h2⟩ := factJoin2_exists h1
    obtain ⟨ods, h3⟩ := factJoin3_exists h2
    exact ⟨_, List.mem_map.2 ⟨_, h3, rfl⟩, rfl, rfl⟩
  · intro t ht dps hdp hno
    subst hdp
    obtain ⟨odu, h1⟩ := factJoin1_exists ht
    have h2 : ((t, odu), none) ∈ factJoin2 (factJoin1 txns du) (some dps) :=
      factJoin2_none_of_no_match h1 fun d hd => hno d hd
    obtain ⟨ods, h3⟩ := factJoin3_exists h2
    exact ⟨_, List.mem_map.2 ⟨_, h3, rfl⟩, rfl, rfl⟩

/-- C5 witness. -/
theorem fact_rows_total_with_sentinels_witness :
    (({ transaction_id := "t1", user_id := some "u1", product_id := "p9",
        timestamp := some 11, amount := 1, store_id := some "s1" } : SilverTxnRow) ∈
      [({ transaction_id := "t1", user_id := some "u1", product_id := "p9",
          timestamp := some 11, amount := 1, store_id := some "s1" } : SilverTxnRow)]) ∧
    ((some [{ product_key := 1, product_id := "p1", product_name := none,
              category := none, price := 2 }] : Option (List DimProductRow)) =
      some [{ product_key := 1, product_id := "p1", product_name := none,
              category := none, price := 2 }]) ∧
    (∀ d ∈ [({ product_key := 1, product_id := "p1", product_name := none,
               category := none, price := 2 } : DimProductRow)],
      d.product_id ≠ "p9") ∧
    (∃ f ∈ buildFactTransactions
        [{ transaction_id := "t1", user_id := some "u1", product_id := "p9",
           timestamp := some 11, amount := 1, store_id := some "s1" }]
        none
        (some [{ product_key := 1, product_id := "p1", product_name := none,
                 category := none, price := 2 }])
        none,
      f.transaction_id = "t1" ∧ f.product_key = some (-1)) :=
  ⟨List.mem_singleton_self _, rfl, by decide,
    (fact_rows_total_with_sentinels
        [{ transaction_id := "t1", user_id := some "u1", product_id := "p9",
           timestamp := some 11, amount := 1, store_id := some "s1" }]
        none
        (some [{ product_key := 1, product_id := "p1", product_name := none,
                 category := none, price := 2 }])
        none).2.2
      _ (List.mem_singleton_self _) _ rfl (by decide)⟩

/-- C6: over two raw artifacts where one exposes an `amount` column and
the other `price` and `quantity` columns, the unioned scan extends each
row with `NULL` for the columns its own artifact lacks, and the single
coalesced amount expression is populated for rows of both sources by
taking the first non-null cast-successful candidate: an `amount`-source
row yields its cast `amount` value (first candidate), a
`price`×`quantity`-source row yields the product (its `amount` cell is
`NULL`, so the next candidate wins); and every validated output row's
amount is the candidate-coalesce of some unioned input row. -/
theorem amount_coalesced_across_sources
    (A B : RawArtifact) (now : Nat)
    (hAamt : "amount" ∈ A.headers) (hBamt : "amount" ∉ B.headers)
    (hBp : "price" ∈ B.headers) (hBq : "quantity" ∈ B.headers) :
    (unionByName [A, B] =
      A.cells.map (fun ra c => if A.headers.contains c then ra c else CellVal.null) ++
        B.cells.map (fun rb c => if B.headers.contains c then rb c else CellVal.null)) ∧
    (∀ ra : RawRow, ∀ v : ℚ, tryCastDouble (ra "amount") = some v →
      amtExpr (discoverCols [A, B])
        (fun c => if A.headers.contains c then ra c else CellVal.null) = v) ∧
    (∀ rb : RawRow, ∀ p q : ℚ,
      tryCastDouble (rb "price") = some p → tryCastDouble (rb "quantity") = some q →
      amtExpr (discoverCols [A, B])
        (fun c => if B.headers.contains c then rb c else CellVal.null) = p * q) ∧
    (∀ s ∈ cleanTransactionsRows now [A, B],
      ∃ r ∈ unionByName [A, B], s.amount = amtExpr (discoverCols [A, B]) r) := by
  have hcAmt : (discoverCols [A, B]).contains "amount" = true :=
    List.elem_eq_true_of_mem (List.mem_dedup.2 (List.mem_flatMap.2 ⟨A, by simp, hAamt⟩))
  have hcP : (discoverCols [A, B]).contains "price" = true :=
    List.elem_eq_true_of_mem (List.mem_dedup.2 (List.mem_flatMap.2 ⟨B, by simp, hBp⟩))
  have hcQ : (discoverCols [A, B]).contains "quantity" = true :=
    List.elem_eq_true_of_mem (List.mem_dedup.2 (List.mem_flatMap.2 ⟨B, by simp, hBq⟩))
  refine ⟨?_, ?_, ?_, ?_⟩
  · simp [unionByName]
  · intro ra v hv
    apply amtExpr_amount_first hcAmt
    simp [hAamt, hv]
  · intro rb p q hp hq
    apply amtExpr_price_quantity hcAmt hcP hcQ
    · simp [hBamt]
    · simp [hBp, hp]
    · simp [hBq, hq]
  · intro s hs
    unfold cleanTransactionsRows at hs
    obtain ⟨u, hu, rfl⟩ := List.mem_map.1 hs
    have hu2 : u ∈ (subSelect (discoverCols [A, B]) now (unionByName [A, B])).filter
        subWhere :=
      (List.perm_insertionSort _ _).mem_iff.1 (mem_of_mem_distinctOn hu)
    have hu3 := List.mem_of_mem_filter hu2
    unfold subSelect at hu3
    obtain ⟨pnum, hpnum, rfl⟩ := List.mem_map.1 hu3
    refine ⟨pnum.2, ?_, rfl⟩
    obtain ⟨d, -, hget⟩ := mem_numberLines.1 hpnum
    exact nthElem_mem hget

/-- C6 witness. -/
theorem amount_coalesced_across_sources_witness :
    ("amount" ∈ ["transaction_id", "product_id", "amount"]) ∧
    ("amount" ∉ ["transaction_id", "product_id", "price", "quantity"]) ∧
    ("price" ∈ ["transaction_id", "product_id", "price", "quantity"]) ∧
    ("quantity" ∈ ["transaction_id", "product_id", "price", "quantity"]) ∧
    (∀ rb : RawRow, ∀ p q : ℚ,
      tryCastDouble (rb "price") = some p → tryCastDouble (rb "quantity") = some q →
      amtExpr
        (discoverCols
          [{ headers := ["transaction_id", "product_id", "amount"], cells := [] },
           { headers := ["transaction_id", "product_id", "price", "quantity"],
             cells := [] }])
        (fun c =>
          if (["transaction_id", "product_id", "price", "quantity"] : List String).contains
              c then
            rb c
          else CellVal.null) = p * q) :=
  ⟨by decide, by decide, by decide, by decide,
    (amount_coalesced_across_sources
      { headers := ["transaction_id", "product_id", "amount"], cells := [] }
      { headers := ["transaction_id", "product_id", "price", "quantity"], cells := [] }
      0 (by decide) (by decide) (by decide) (by decide)).2.2.1⟩

/-- C7 counterexample: when no timestamp candidate column exists among
the raw artifacts, `ts_expr` falls back to `CURRENT_TIMESTAMP`, so two
runs of the normalizer over the very same raw artifacts (at clock
instants 1 and 2) produce different validated tables — the timestamp
column holds the run time. -/
theorem clean_transactions_rerun_differs_counterexample :
    cleanTransactionsRows 1
        [{ headers := ["transaction_id", "amount"],
           cells := [fun c => if c == "transaction_id" then CellVal.str "t1"
                     else if c == "amount" then CellVal.num 5
                     else CellVal.null] }] ≠
      cleanTransactionsRows 2
        [{ headers := ["transaction_id", "amount"],
           cells := [fun c => if c == "transaction_id" then CellVal.str "t1"
                     else if c == "amount" then CellVal.num 5
                     else CellVal.null] }] := by
  decide

/-- C7 (amended): the normalizer's output is a pure function of the raw
artifacts — it never depends on the previously published Silver table,
so re-running overwrites the table with an identical value — and it is
independent of the run clock whenever the discovered columns include at
least one timestamp candidate; without one, the `CURRENT_TIMESTAMP`
fallback makes the timestamp column differ between runs (per the
counterexample).  `clean_users` has no clock fallback, so its re-runs
always coincide. -/
theorem clean_transactions_rerun_deterministic
    (arts : List RawArtifact) (now1 now2 : Nat)
    (s1 s2 : Option (List SilverTxnRow)) (raws : List RawUserRow)
    (s3 : Option (List SilverUserRow))
    (hts : candExprs (discoverCols arts) tsCols tryCastTimestamp ≠ []) :
    cleanTransactionsRows now1 arts = cleanTransactionsRows now2 arts ∧
    cleanTransactionsRun now1 arts s1 = cleanTransactionsRun now1 arts s2 ∧
    cleanUsersRun raws (cleanUsersRun raws s3) = cleanUsersRun raws s3 := by
  refine ⟨?_, rfl, rfl⟩
  unfold cleanTransactionsRows
  have hsub : subSelect (discoverCols arts) now1 (unionByName arts) =
      subSelect (discoverCols arts) now2 (unionByName arts) := by
    unfold subSelect
    apply List.map_congr_left
    intro p _
    rw [tsExpr_independent_of_now hts]
  rw [hsub]

/-- C7 (amended) witness. -/
theorem clean_transactions_rerun_deterministic_witness :
    (candExprs
        (discoverCols
          [{ headers := ["transaction_id", "timestamp", "amount"], cells := [] }])
        tsCols tryCastTimestamp ≠ []) ∧
    (cleanTransactionsRows 1
        [{ headers := ["transaction_id", "timestamp", "amount"], cells := [] }] =
      cleanTransactionsRows 2
        [{ headers := ["transaction_id", "timestamp", "amount"], cells := [] }] ∧
    cleanTransactionsRun 1
        [{ headers := ["transaction_id", "timestamp", "amount"], cells := [] }] none =
      cleanTransactionsRun 1
        [{ headers := ["transaction_id", "timestamp", "amount"], cells := [] }]
        (some []) ∧
    cleanUsersRun [] (cleanUsersRun [] none) = cleanUsersRun [] none) :=
  ⟨by
      intro h
      have hl := congrArg List.length h
      simp only [candExprs, List.length_map] at hl
      exact absurd hl (by decide),
    clean_transactions_rerun_deterministic
      [{ headers := ["transaction_id", "timestamp", "amount"], cells := [] }]
      1 2 none (some []) [] none
      (by
        intro h
        have hl := congrArg List.length h
        simp only [candExprs, List.length_map] at hl
        exact absurd hl (by decide))⟩

/-- C10: a buffer line that fails JSON parsing is skipped by
`read_new_events` (no event with its line number is delivered), yet a
successful batch advances the marker past its line number, and every
later read over any buffer, from any marker at least as large, delivers
no event with that line number — the malformed line is dropped
permanently and never redelivered. -/
theorem malformed_event_dropped_permanently {α : Type}
    (bufferAtRead bufferAtMark later : List (Option α)) (last j : Nat)
    (hpref : bufferAtRead <+: bufferAtMark)
    (hj : bufferAtRead[j - 1]? = some none)
    (hjpos : 1 ≤ j)
    (hnew : readNewEvents bufferAtRead last ≠ []) :
    (∀ p ∈ readNewEventsIdx bufferAtRead last, p.1 ≠ j) ∧
    j ≤ processMicroBatchMarker bufferAtRead bufferAtMark true last ∧
    (∀ last2, processMicroBatchMarker bufferAtRead bufferAtMark true last ≤ last2 →
      ∀ p ∈ readNewEventsIdx later last2, p.1 ≠ j) := by
  have hmark : processMicroBatchMarker bufferAtRead bufferAtMark true last =
      bufferAtMark.length := by
    unfold processMicroBatchMarker
    match hre : readNewEvents bufferAtRead last with
    | [] => exact absurd hre hnew
    | e :: es => rfl
  have hjlen : j ≤ bufferAtRead.length := by
    obtain ⟨hlt2, -⟩ := List.getElem?_eq_some_iff.1 hj
    omega
  refine ⟨?_, ?_, ?_⟩
  · intro p hp hpj
    obtain ⟨-, hget⟩ := mem_readNewEventsIdx.1 hp
    rw [hpj, hj] at hget
    simp at hget
  · rw [hmark]
    exact le_trans hjlen hpref.length_le
  · intro last2 hle p hp hpj
    obtain ⟨hlt, -⟩ := mem_readNewEventsIdx.1 hp
    rw [hmark] at hle
    have := hpref.length_le
    omega

/-- C3: after every `apply_scd_type_2` run — the initial load or any
subsequent merge whose inputs are well-formed (the incoming Silver users
have pairwise-distinct business keys, as `clean_users` deduplicates on
`user_id`, and the existing Gold table satisfies the invariant, which
holds inductively from the initial load) — the resulting `dim_users`
table has at most one current row per `user_id`, and `end_date` is null
exactly on the current rows (every non-current row has a non-null
`end_date`). -/
theorem scd_invariant_after_apply
    (gold : Option (List DimUserRow)) (silver : List SilverUserRow) (today : Nat)
    (hids : (silver.map SilverUserRow.user_id).Nodup)
    (hgold : ∀ t, gold = some t → scdInvariant t) :
    scdInvariant (applyScdType2 gold silver today) := by
  match gold with
  | none => exact initialLoad_invariant hids
  | some existing =>
    exact ⟨atMostOneCurrent_scdMerge (hgold existing rfl).1 hids,
      endDateIffCurrent_scdMerge (hgold existing rfl).2⟩

/-- C3 witness. -/
theorem scd_invariant_after_apply_witness :
    ((([{ user_id := "u1", name := none, email := none, city := "B",
          signup_date := some 2 },
        { user_id := "u2", name := none, email := none, city := "C",
          signup_date := some 3 }] : List SilverUserRow).map
        SilverUserRow.user_id).Nodup) ∧
    (∀ t, (some
        [{ surrogate_key := 1, user_id := "u1", name := none, email := none,
           city := "A", effective_date := some 1, end_date := none,
           is_current := true }] : Option (List DimUserRow)) = some t →
      scdInvariant t) ∧
    scdInvariant (applyScdType2
      (some
        [{ surrogate_key := 1, user_id := "u1", name := none, email := none,
           city := "A", effective_date := some 1, end_date := none,
           is_current := true }])
      [{ user_id := "u1", name := none, email := none, city := "B",
         signup_date := some 2 },
       { user_id := "u2", name := none, email := none, city := "C",
         signup_date := some 3 }] 7) :=
  ⟨by decide,
    fun t ht => by rw [← Option.some.inj ht]; decide,
    scd_invariant_after_apply _ _ 7 (by decide)
      fun t ht => by rw [← Option.some.inj ht]; decide⟩

/-- C9: in a subsequent merge, an existing current version whose
`user_id` matches no incoming row is in none of the five merged row
classes, so it is absent from the written dimension; the already-closed
history rows are all kept. -/
theorem scd_merge_drops_unmatched_current_version
    (existing : List DimUserRow) (incoming : List SilverUserRow) (today : Nat)
    (e : DimUserRow) (he : e ∈ existing) (hcur : e.is_current = true)
    (hno : ∀ i ∈ incoming, i.user_id ≠ e.user_id) :
    e ∉ scdMerge existing incoming today ∧
    ∀ h ∈ existing, h.is_current = false → h ∈ scdMerge existing incoming today := by
  constructor
  · intro hmem
    rcases mem_scdMerge.1 hmem with hu | hc | hn | hb | ha
    · obtain ⟨-, -, i, hi, huid, -⟩ := mem_unchangedRows.1 hu
      exact hno i hi huid.symm
    · obtain ⟨e0, -, i, hi, -, -, -, heq⟩ := mem_closedRows.1 hc
      rw [heq] at hcur
      simp at hcur
    · obtain ⟨k, i, hisort, -, heq⟩ := mem_newVersionRows.1 hn
      have hi : i ∈ incoming :=
        (mem_newVersionSrc.1 (mem_sortByUserId.1 hisort)).1
      have : e.user_id = i.user_id := by rw [heq]
      exact hno i hi this.symm
    · obtain ⟨k, i, hisort, -, heq⟩ := mem_brandNewRows.1 hb
      have hi : i ∈ incoming :=
        (mem_brandNewSrc.1 ((List.perm_insertionSort _ _).mem_iff.1 hisort)).1
      have : e.user_id = i.user_id := by rw [heq]
      exact hno i hi this.symm
    · obtain ⟨-, hfalse⟩ := mem_alreadyClosedRows.1 ha
      rw [hcur] at hfalse
      exact Bool.noConfusion hfalse
  · intro h hh hfalse
    exact mem_scdMerge.2
      (Or.inr (Or.inr (Or.inr (Or.inr (mem_alreadyClosedRows.2 ⟨hh, hfalse⟩)))))

/-- C9 witness. -/
theorem scd_merge_drops_unmatched_current_version_witness :
    ({ surrogate_key := 1, user_id := "u1", name := none, email := none, city := "A",
       effective_date := none, end_date := none, is_current := true } ∈
        ([{ surrogate_key := 1, user_id := "u1", name := none, email := none, city := "A",
            effective_date := none, end_date := none, is_current := true },
          { surrogate_key := 2, user_id := "u2", name := none, email := none, city := "B",
            effective_date := none, end_date := some 4, is_current := false }] :
          List DimUserRow)) ∧
    (({ surrogate_key := 1, user_id := "u1", name := none, email := none, city := "A",
        effective_date := none, end_date := none, is_current := true } :
        DimUserRow).is_current = true) ∧
    (∀ i ∈ ([{ user_id := "u3", name := none, email := none, city := "C",
               signup_date := none }] : List SilverUserRow),
      i.user_id ≠ "u1") ∧
    (({ surrogate_key := 1, user_id := "u1", name := none, email := none, city := "A",
        effective_date := none, end_date := none, is_current := true } : DimUserRow) ∉
        scdMerge
          [{ surrogate_key := 1, user_id := "u1", name := none, email := none, city := "A",
             effective_date := none, end_date := none, is_current := true },
           { surrogate_key := 2, user_id := "u2", name := none, email := none, city := "B",
             effective_date := none, end_date := some 4, is_current := false }]
          [{ user_id := "u3", name := none, email := none, city := "C",
             signup_date := none }] 9 ∧
      ∀ h ∈ ([{ surrogate_key := 1, user_id := "u1", name := none, email := none,
                city := "A", effective_date := none, end_date := none, is_current := true },
              { surrogate_key := 2, user_id := "u2", name := none, email := none,
                city := "B", effective_date := none, end_date := some 4,
                is_current := false }] : List DimUserRow),
        h.is_current = false →
          h ∈ scdMerge
            [{ surrogate_key := 1, user_id := "u1", name := none, email := none,
               city := "A", effective_date := none, end_date := none, is_current := true },
             { surrogate_key := 2, user_id := "u2", name := none, email := none,
               city := "B", effective_date := none, end_date := some 4,
               is_current := false }]
            [{ user_id := "u3", name := none, email := none, city := "C",
               signup_date := none }] 9) :=
  ⟨by decide, by decide, by decide,
    scd_merge_drops_unmatched_current_version _ _ 9 _ (by decide) (by decide) (by decide)⟩

/-- C4 counterexample: surrogate keys are reused across merges.  Starting
from an initial load of users `u1` (key 1) and `u2` (key 2), a merge whose
incoming batch lacks `u2` drops `u2`'s current row (C9), making the
table's maximum key decrease from 2 to 1; the next merge then allocates
key `max + 1 = 2` to the brand-new business key `u3` — key 2 is reused
for a different business key, contradicting the claim. -/
theorem scd_surrogate_key_reused_counterexample :
    (∃ r ∈ initialLoad
        [{ user_id := "u1", name := none, email := none, city := "A", signup_date := none },
         { user_id := "u2", name := none, email := none, city := "B", signup_date := none }],
      r.surrogate_key = 2 ∧ r.user_id = "u2") ∧
    maxSk (scdMerge
        (initialLoad
          [{ user_id := "u1", name := none, email := none, city := "A", signup_date := none },
           { user_id := "u2", name := none, email := none, city := "B", signup_date := none }])
        [{ user_id := "u1", name := none, email := none, city := "A", signup_date := none }]
        5) = 1 ∧
    (∃ r ∈ scdMerge
        (scdMerge
          (initialLoad
            [{ user_id := "u1", name := none, email := none, city := "A",
               signup_date := none },
             { user_id := "u2", name := none, email := none, city := "B",
               signup_date := none }])
          [{ user_id := "u1", name := none, email := none, city := "A", signup_date := none }]
          5)
        [{ user_id := "u1", name := none, email := none, city := "A", signup_date := none },
         { user_id := "u3", name := none, email := none, city := "C", signup_date := some 3 }]
        6,
      r.surrogate_key = 2 ∧ r.user_id = "u3") := by
  decide

/-- C4 (amended): within every single merge, key allocation is monotonic
and fresh — every `new_versions` or `brand_new` row gets a surrogate key
strictly greater than every key present in the table at merge start, the
allocated keys are exactly `max + 1, ..., max + (number of new rows)` (so
the first new key is `max + 1`), and every other merged row either is an
existing row carried forward or is an existing row closed in place, both
keeping their keys.  (Across merges, keys of rows dropped by an
incomplete incoming batch can be reused, per the counterexample.) -/
theorem scd_merge_allocates_fresh_increasing_keys
    (existing : List DimUserRow) (incoming : List SilverUserRow) (today : Nat) :
    (∀ r ∈ newVersionRows existing incoming today, ∀ e ∈ existing,
      e.surrogate_key < r.surrogate_key) ∧
    (∀ r ∈ brandNewRows existing incoming, ∀ e ∈ existing,
      e.surrogate_key < r.surrogate_key) ∧
    (∀ j : Int, maxSk existing < j →
      j ≤ maxSk existing + (newVersionSrc existing incoming).length +
          (brandNewSrc existing incoming).length →
      ∃ r ∈ scdMerge existing incoming today,
        r.surrogate_key = j ∧ r.is_current = true) ∧
    (∀ r ∈ scdMerge existing incoming today,
      r ∈ existing ∨
      (∃ e ∈ existing, r = { e with end_date := some today, is_current := false }) ∨
      maxSk existing < r.surrogate_key) := by
  refine ⟨?_, ?_, ?_, ?_⟩
  · intro r hr e he
    obtain ⟨k, i, -, hm, heq⟩ := mem_newVersionRows.1 hr
    have hb := numberFromInt_bound hm
    have hle := sk_le_maxSk he
    have hk : r.surrogate_key = k := by rw [heq]
    omega
  · intro r hr e he
    obtain ⟨k, i, -, hm, heq⟩ := mem_brandNewRows.1 hr
    have hb := numberFromInt_bound hm
    have hle := sk_le_maxSk he
    have hk : r.surrogate_key = k := by rw [heq]
    omega
  · intro j hj1 hj2
    by_cases hcase : j ≤ maxSk existing + (newVersionSrc existing incoming).length
    · have hlen : (sortByUserId (newVersionSrc existing incoming)).length =
          (newVersionSrc existing incoming).length :=
        (List.perm_insertionSort _ _).length_eq
      obtain ⟨i, hm⟩ :=
        @numberFromInt_covers _ (sortByUserId (newVersionSrc existing incoming))
          (maxSk existing) j hj1 (by rw [hlen]; exact hcase)
      refine ⟨_, mem_scdMerge.2 (Or.inr (Or.inr (Or.inl
        (List.mem_map.2 ⟨(j, i), hm, rfl⟩)))), rfl, rfl⟩
    · have hlen : (sortByUserId (brandNewSrc existing incoming)).length =
          (brandNewSrc existing incoming).length :=
        (List.perm_insertionSort _ _).length_eq
      obtain ⟨i, hm⟩ :=
        @numberFromInt_covers _ (sortByUserId (brandNewSrc existing incoming))
          (maxSk existing + (newVersionSrc existing incoming).length) j
          (by omega) (by rw [hlen]; exact hj2)
      refine ⟨_, mem_scdMerge.2 (Or.inr (Or.inr (Or.inr (Or.inl
        (List.mem_map.2 ⟨(j, i), hm, rfl⟩))))), rfl, rfl⟩
  · intro r hr
    rcases mem_scdMerge.1 hr with hu | hc | hn | hb | ha
    · exact Or.inl (mem_unchangedRows.1 hu).1
    · obtain ⟨e, he, i, hi, -, -, -, heq⟩ := mem_closedRows.1 hc
      exact Or.inr (Or.inl ⟨e, he, heq⟩)
    · obtain ⟨k, i, -, hm, heq⟩ := mem_newVersionRows.1 hn
      have hb2 := numberFromInt_bound hm
      have hk : r.surrogate_key = k := by rw [heq]
      exact Or.inr (Or.inr (by omega))
    · obtain ⟨k, i, -, hm, heq⟩ := mem_brandNewRows.1 hb
      have hb2 := numberFromInt_bound hm
      have hk : r.surrogate_key = k := by rw [heq]
      exact Or.inr (Or.inr (by omega))
    · exact Or.inl (mem_alreadyClosedRows.1 ha).1

/-- C4 (amended) witness. -/
theorem scd_merge_allocates_fresh_increasing_keys_witness :
    (maxSk ([] : List DimUserRow) < 1) ∧
    ((1 : Int) ≤ maxSk ([] : List DimUserRow) +
        (newVersionSrc []
          [{ user_id := "u1", name := none, email := none, city := "D",
             signup_date := none }]).length +
        (brandNewSrc []
          [{ user_id := "u1", name := none, email := none, city := "D",
             signup_date := none }]).length) ∧
    (∃ r ∈ scdMerge []
        [{ user_id := "u1", name := none, email := none, city := "D",
           signup_date := none }] 9,
      r.surrogate_key = 1 ∧ r.is_current = true) :=
  ⟨by decide, by decide,
    (scd_merge_allocates_fresh_increasing_keys []
      [{ user_id := "u1", name := none, email := none, city := "D",
         signup_date := none }] 9).2.2.1 1 (by decide) (by decide)⟩

/-- C10 witness. -/
theorem malformed_event_dropped_permanently_witness :
    (([some 7, none] : List (Option Nat)) <+: [some 7, none]) ∧
    ([some 7, none] : List (Option Nat))[2 - 1]? = some none ∧
    (1 : Nat) ≤ 2 ∧
    readNewEvents ([some 7, none] : List (Option Nat)) 0 ≠ [] ∧
    ((∀ p ∈ readNewEventsIdx ([some 7, none] : List (Option Nat)) 0, p.1 ≠ 2) ∧
      2 ≤ processMicroBatchMarker ([some 7, none] : List (Option Nat)) [some 7, none] true 0 ∧
      (∀ last2,
          processMicroBatchMarker ([some 7, none] : List (Option Nat)) [some 7, none] true 0 ≤
            last2 →
          ∀ p ∈ readNewEventsIdx ([some 7, none, some 9] : List (Option Nat)) last2,
            p.1 ≠ 2)) :=
  ⟨⟨[], rfl⟩, by decide, by decide, by decide,
    malformed_event_dropped_permanently [some 7, none] [some 7, none] [some 7, none, some 9]
      0 2 ⟨[], rfl⟩ (by decide) (by decide) (by decide)⟩

end RetailNexus
